import Mathlib

/-!
Verification development for the RecipeML feature-space recipe matching core.

The Lean definitions below are a shallow embedding of the Python source:

* `remove_whitespace_and_duplicates` embeds
  `DataWrangling.remove_whitespace_and_duplicates` from `backend/data_utils.py`
  (lowercase, strip, drop characters matching the regex class `[^\w\s]`,
  dedupe keeping the first occurrence).
* `generate_recipe_recommendations` embeds
  `FeatureSpaceMatching.generate_recipe_recommendations` from
  `feature_scape/recommendation.py`, over a TF-IDF / nearest-neighbour model
  embedding the `TfidfVectorizer(stop_words="english")` and
  `NearestNeighbors(n_neighbors=11, metric="cosine")` configuration of
  `feature_scape/scripts/feature_space_matching.py`.
* `lookup_recipe_details_by_index` embeds
  `FeatureSpaceMatching.lookup_recipe_details_by_index` (default
  `use_large_model=False` branch).

Text is modelled as `List Char`; the ASCII fragment of Python string and
regex semantics is modelled (Python `str.lower`, `str.strip`, regex `\w`,
`\s`), which is faithful on the ASCII corpora and queries considered here.
Floating point arithmetic of numpy and scikit-learn is modelled over `ℝ`.
-/

/-- Python regex class `\s` membership, on the ASCII fragment. -/
def isSpaceChar (c : Char) : Bool :=
  c == ' ' || c == '\t' || c == '\n' || c == '\r' || c == '\x0b' || c == '\x0c'

/-- Python regex class `\w` membership, on the ASCII fragment:
alphanumeric characters and the underscore. -/
def isWordChar (c : Char) : Bool :=
  c.isAlphanum || c == '_'

/-- Python `str.lower()` (ASCII model, using the core `Char.toLower`). -/
def pyLower (s : List Char) : List Char :=
  s.map Char.toLower

/-- Python `str.strip()`: drop leading and trailing whitespace. -/
def pyStrip (s : List Char) : List Char :=
  ((s.dropWhile isSpaceChar).reverse.dropWhile isSpaceChar).reverse

/-- Python `re.sub(r"[^\w\s]", "", s)`: keep exactly the characters that
match `\w` or `\s`. -/
def subNonWordSpace (s : List Char) : List Char :=
  s.filter (fun c => isWordChar c || isSpaceChar c)

/-- The cleaning applied to one ingredient inside the loop of
`DataWrangling.remove_whitespace_and_duplicates`:
`ingredient.lower().strip()` followed by `re.sub(r"[^\w\s]", "", ...)`. -/
def cleanIngredient (s : List Char) : List Char :=
  subNonWordSpace (pyStrip (pyLower s))

/-- The loop of `DataWrangling.remove_whitespace_and_duplicates`: the first
argument is the remaining input list, the second the `unique_ingredients`
set accumulated so far (modelled as the list of elements added to it). -/
def rwadLoop : List (List Char) → List (List Char) → List (List Char)
  | [], _ => []
  | ing :: rest, seen =>
    let c := cleanIngredient ing
    if c ∈ seen then rwadLoop rest seen
    else c :: rwadLoop rest (c :: seen)

/-- Embedding of `DataWrangling.remove_whitespace_and_duplicates`
(`backend/data_utils.py`): clean every ingredient (lowercase, strip,
remove `[^\w\s]` characters) and keep only the first occurrence of every
cleaned ingredient. -/
def remove_whitespace_and_duplicates (l : List (List Char)) : List (List Char) :=
  rwadLoop l []

/-- Specification-level first-seen deduplication: keep each element the
first time it appears, drop all later occurrences. -/
def firstSeenDedup : List (List Char) → List (List Char)
  | [] => []
  | x :: xs => x :: firstSeenDedup (xs.filter (fun y => y != x))
termination_by l => l.length
decreasing_by
  simp only [List.length_cons]
  exact Nat.lt_succ_of_le (List.length_filter_le _ _)

/-- Variant of `firstSeenDedup` that additionally skips elements of `seen`;
it matches the shape of `rwadLoop` on a pre-cleaned list. -/
def firstSeenDedupFrom : List (List Char) → List (List Char) → List (List Char)
  | [], _ => []
  | x :: xs, seen =>
    if x ∈ seen then firstSeenDedupFrom xs seen
    else x :: firstSeenDedupFrom xs (x :: seen)

/-- Python `" ".join(...)`: concatenate the texts with a single space
between consecutive elements. -/
def joinSpace : List (List Char) → List Char
  | [] => []
  | [s] => s
  | s :: rest => s ++ (' ' :: joinSpace rest)

/-- The built-in English stop word list of scikit-learn
(`sklearn.feature_extraction.text.ENGLISH_STOP_WORDS`), selected in the
source by `TfidfVectorizer(stop_words="english")`. -/
def englishStopWords : List (List Char) :=
  (["a", "about", "above", "across", "after", "afterwards", "again",
    "against", "all", "almost", "alone", "along", "already", "also",
    "although", "always", "am", "among", "amongst", "amoungst", "amount",
    "an", "and", "another", "any", "anyhow", "anyone", "anything", "anyway",
    "anywhere", "are", "around", "as", "at", "back", "be", "became",
    "because", "become", "becomes", "becoming", "been", "before",
    "beforehand", "behind", "being", "below", "beside", "besides",
    "between", "beyond", "bill", "both", "bottom", "but", "by", "call",
    "can", "cannot", "cant", "co", "con", "could", "couldnt", "cry", "de",
    "describe", "detail", "do", "done", "down", "due", "during", "each",
    "eg", "eight", "either", "eleven", "else", "elsewhere", "empty",
    "enough", "etc", "even", "ever", "every", "everyone", "everything",
    "everywhere", "except", "few", "fifteen", "fify", "fill", "find",
    "fire", "first", "five", "for", "former", "formerly", "forty", "found",
    "four", "from", "front", "full", "further", "get", "give", "go", "had",
    "has", "hasnt", "have", "he", "hence", "her", "here", "hereafter",
    "hereby", "herein", "hereupon", "hers", "herself", "him", "himself",
    "his", "how", "however", "hundred", "i", "ie", "if", "in", "inc",
    "indeed", "interest", "into", "is", "it", "its", "itself", "keep",
    "last", "latter", "latterly", "least", "less", "ltd", "made", "many",
    "may", "me", "meanwhile", "might", "mill", "mine", "more", "moreover",
    "most", "mostly", "move", "much", "must", "my", "myself", "name",
    "namely", "neither", "never", "nevertheless", "next", "nine", "no",
    "nobody", "none", "noone", "nor", "not", "nothing", "now", "nowhere",
    "of", "off", "often", "on", "once", "one", "only", "onto", "or",
    "other", "others", "otherwise", "our", "ours", "ourselves", "out",
    "over", "own", "part", "per", "perhaps", "please", "put", "rather",
    "re", "same", "see", "seem", "seemed", "seeming", "seems", "serious",
    "several", "she", "should", "show", "side", "since", "sincere", "six",
    "sixty", "so", "some", "somehow", "someone", "something", "sometime",
    "sometimes", "somewhere", "still", "such", "system", "take", "ten",
    "than", "that", "the", "their", "them", "themselves", "then", "thence",
    "there", "thereafter", "thereby", "therefore", "therein", "thereupon",
    "these", "they", "thick", "thin", "third", "this", "those", "though",
    "three", "through", "throughout", "thru", "thus", "to", "together",
    "too", "top", "toward", "towards", "twelve", "twenty", "two", "un",
    "under", "until", "up", "upon", "us", "very", "via", "was", "we",
    "well", "were", "what", "whatever", "when", "whence", "whenever",
    "where", "whereafter", "whereas", "whereby", "wherein", "whereupon",
    "wherever", "whether", "which", "while", "whither", "who", "whoever",
    "whole", "whom", "whose", "why", "will", "with", "within", "without",
    "would", "yet", "you", "your", "yours", "yourself",
    "yourselves"].map String.toList)

/-- Helper for `tokenRuns`: the second argument accumulates the current run
of word characters in reverse order. -/
def tokenRunsAux : List Char → List Char → List (List Char)
  | [], cur => if cur.isEmpty then [] else [cur.reverse]
  | c :: rest, cur =>
    if isWordChar c then tokenRunsAux rest (c :: cur)
    else if cur.isEmpty then tokenRunsAux rest cur
    else cur.reverse :: tokenRunsAux rest []

/-- Maximal runs of word characters of a text, in order. -/
def tokenRuns (s : List Char) : List (List Char) :=
  tokenRunsAux s []

/-- Token analysis of `TfidfVectorizer` with its default configuration as
constructed in `LocalAffinityPropagation.generate_tf_idf_embeddings_and_build_model`:
lowercase the text, extract the tokens matching the default token pattern
(runs of word characters of length at least two), then discard stop words. -/
def sklearnTokens (s : List Char) : List (List Char) :=
  ((tokenRuns (pyLower s)).filter (fun t => 2 ≤ t.length)).filter
    (fun t => !englishStopWords.elem t)

/-- The vocabulary learned by fitting the vectorizer on `docs`: the distinct
tokens of the corpus.  scikit-learn stores it sorted alphabetically; the
order is irrelevant here because it is only ever summed over, so the
first-seen order is used. -/
def vocab (docs : List (List Char)) : List (List Char) :=
  firstSeenDedupFrom ((docs.map sklearnTokens).flatten) []

/-- Number of occurrences of term `t` in the token list of a text (the raw
term frequency used by `TfidfVectorizer`). -/
def termCount (text t : List Char) : Nat :=
  (sklearnTokens text).count t

/-- Number of corpus documents containing term `t`. -/
def docFreq (docs : List (List Char)) (t : List Char) : Nat :=
  docs.countP (fun d => (sklearnTokens d).contains t)

/-- The smoothed inverse document frequency used by `TfidfVectorizer` with
its default `smooth_idf=True`: `ln((1 + N) / (1 + df)) + 1`. -/
noncomputable def idf (docs : List (List Char)) (t : List Char) : ℝ :=
  Real.log ((1 + (docs.length : ℝ)) / (1 + (docFreq docs t : ℝ))) + 1

/-- Unnormalized TF-IDF weight of term `t` for a text:
term frequency times smoothed inverse document frequency. -/
noncomputable def tfidfRawWeight (docs : List (List Char)) (text t : List Char) : ℝ :=
  (termCount text t : ℝ) * idf docs t

/-- Squared euclidean norm of the unnormalized TF-IDF vector of a text over
the corpus vocabulary. -/
noncomputable def tfidfNormSq (docs : List (List Char)) (text : List Char) : ℝ :=
  ((vocab docs).map (fun t => tfidfRawWeight docs text t ^ 2)).sum

/-- L2-normalized TF-IDF weight (the default `norm="l2"` of
`TfidfVectorizer`); a zero vector stays zero (division by zero is zero in
`ℝ` as modelled here), matching the zero-row handling of scikit-learn. -/
noncomputable def tfidfWeight (docs : List (List Char)) (text t : List Char) : ℝ :=
  tfidfRawWeight docs text t / Real.sqrt (tfidfNormSq docs text)

/-- Cosine similarity of the TF-IDF vectors of two texts over the corpus
vocabulary (both vectors L2-normalized, so the similarity is the dot
product). -/
noncomputable def cosineSim (docs : List (List Char)) (a b : List Char) : ℝ :=
  ((vocab docs).map (fun t => tfidfWeight docs a t * tfidfWeight docs b t)).sum

/-- Cosine distance, the metric configured for `NearestNeighbors`. -/
noncomputable def cosineDist (docs : List (List Char)) (a b : List Char) : ℝ :=
  1 - cosineSim docs a b

/-- Neighbour ordering used by `kneighbors`: strictly smaller cosine
distance first; at exactly equal distance the tie is broken by ascending
document index (the upstream library leaves the tie order unspecified, a
deterministic choice is needed to obtain a function). -/
def neighborRel (docs : List (List Char)) (q : List Char) (i j : Nat) : Prop :=
  cosineDist docs q (docs.getD i []) < cosineDist docs q (docs.getD j [])
  ∨ (cosineDist docs q (docs.getD i []) = cosineDist docs q (docs.getD j [])
      ∧ i ≤ j)

noncomputable instance neighborRelDecidable (docs : List (List Char)) (q : List Char) :
    DecidableRel (neighborRel docs q) :=
  fun _ _ => Classical.propDecidable _

/-- All document indices of the corpus, ordered by ascending cosine
distance from the query text. -/
noncomputable def kneighborsOrder (docs : List (List Char)) (q : List Char) : List Nat :=
  List.insertionSort (neighborRel docs q) (List.range docs.length)

/-- Error raised by scikit-learn when `kneighbors` requests more neighbours
than there are fitted samples
(`Expected n_neighbors <= n_samples_fit`). -/
inductive SklearnError
  | nNeighborsExceedsFit
deriving DecidableEq

/-- The `n_neighbors=11` argument passed to `NearestNeighbors` in
`FeatureSpaceMatching.initialize_feature_space_matching_algorithm`. -/
def nNeighborsParam : Nat := 11

/-- `model.kneighbors(tfidf_vector)`: the indices of the `n_neighbors`
closest corpus documents, ascending by cosine distance; an error when the
fitted corpus holds fewer than `n_neighbors` documents. -/
noncomputable def kneighbors (docs : List (List Char)) (q : List Char) :
    Except SklearnError (List Nat) :=
  if docs.length < nNeighborsParam then .error .nNeighborsExceedsFit
  else .ok ((kneighborsOrder docs q).take nNeighborsParam)

/-- The query text built by `generate_recipe_recommendations`:
`" ".join(input_ingredients).lower()`. -/
def ingredientsText (input : List (List Char)) : List Char :=
  pyLower (joinSpace input)

/-- Embedding of `FeatureSpaceMatching.generate_recipe_recommendations`
(`feature_scape/recommendation.py`): join and lowercase the input
ingredients, transform them with the fitted vectorizer, query the
`n_neighbors=11` model, drop the first returned neighbour
(`indices[0][1:]`) and return the first six of the rest (`[:6]`).  The
fitted corpus `docs` stands for the model and vectorizer state. -/
noncomputable def generate_recipe_recommendations (input : List (List Char))
    (docs : List (List Char)) : Except SklearnError (List Nat) :=
  match kneighbors docs (ingredientsText input) with
  | .error e => .error e
  | .ok indices => .ok ((indices.drop 1).take 6)

/-- Modelled from the spec (section 4.1 / claim C4): the query text the
pipeline would produce if it first normalized the ingredients with the
Text Normalizer (`remove_whitespace_and_duplicates`) and then joined them
with single spaces. -/
def normalizedQueryText (input : List (List Char)) : List Char :=
  joinSpace (remove_whitespace_and_duplicates input)

/-- Modelled from the spec (claim C5): the plain TF-IDF weight formula the
specification states, `tf * log(N / df)` with no smoothing. -/
noncomputable def tfidfRawWeightSpec (docs : List (List Char)) (text t : List Char) : ℝ :=
  (termCount text t : ℝ) * Real.log ((docs.length : ℝ) / (docFreq docs t : ℝ))

/-- Modelled from the spec (claim C5): squared norm of the plain TF-IDF
vector. -/
noncomputable def tfidfNormSqSpec (docs : List (List Char)) (text : List Char) : ℝ :=
  ((vocab docs).map (fun t => tfidfRawWeightSpec docs text t ^ 2)).sum

/-- Modelled from the spec (claim C5): the L2-normalized plain TF-IDF
weight. -/
noncomputable def tfidfWeightSpec (docs : List (List Char)) (text t : List Char) : ℝ :=
  tfidfRawWeightSpec docs text t / Real.sqrt (tfidfNormSqSpec docs text)

/-- One row of the recipe DataFrame, restricted to the columns read by
`lookup_recipe_details_by_index` on its default
(`use_large_model=False`) path. -/
structure RecipeRow where
  recipe : List Char
  rawIngredients : List Char
  instructions : List Char
  url : List Char
  source : List Char
deriving DecidableEq

/-- The preparation time returned by `lookup_recipe_details_by_index`:
either the `[time, calories]` pair parsed from the PaLM response, or the
`random.randint(15, 90)` value substituted when the PaLM call fails. -/
inductive RecipePrepTime
  | palmTime (minutes calories : Int)
  | randomFallback (value : Nat)
deriving DecidableEq

/-- The pandas `IndexError` raised by `.iloc[index]` for an out-of-range
positional index. -/
inductive LookupError
  | indexOutOfRange
deriving DecidableEq

/-- Embedding of `FeatureSpaceMatching.lookup_recipe_details_by_index`
(`feature_scape/recommendation.py`, default `use_large_model=False`
branch).  `palmResult` models the outcome of the PaLM generate-and-parse
block (`none` when it raises); `randDraw` models the value drawn by
`random.randint(15, 90)` in the fallback branch.  The returned tuple is
`(name, type, ingredients, instructions, preparation_time, url)`. -/
def lookup_recipe_details_by_index (recipe_data : List RecipeRow) (index : Nat)
    (palmResult : Option (Int × Int × List Char)) (randDraw : Nat) :
    Except LookupError
      (List Char × List Char × List Char × List Char × RecipePrepTime × List Char) :=
  match recipe_data.get? index with
  | none => .error .indexOutOfRange
  | some row =>
    match palmResult with
    | some (minutes, calories, rtype) =>
      .ok (row.recipe, rtype, row.rawIngredients, row.instructions,
        RecipePrepTime.palmTime minutes calories, row.url)
    | none =>
      .ok (row.recipe, row.source, row.rawIngredients, row.instructions,
        RecipePrepTime.randomFallback randDraw, row.url)

/-- An eleven-document corpus: document 0 shares its single distinct term
with the query text used below, every other document is a single distinct
food word. -/
def corpus11 : List (List Char) :=
  [("bread bread").toList, ("rice").toList, ("milk").toList,
    ("corn").toList, ("kale").toList, ("oats").toList, ("peas").toList,
    ("tofu").toList, ("salt").toList, ("plum").toList, ("lime").toList]

/-- The three-record corpus of the concrete scenario of the spec:
R1 ingredients bread and butter, R2 bread and cheese, R3 rice and egg. -/
def corpusScenario : List (List Char) :=
  [("bread butter").toList, ("bread cheese").toList, ("rice egg").toList]

/-- A second small corpus (three documents) used for the result-bound
counterexample. -/
def corpusSmall : List (List Char) :=
  [("rice egg").toList, ("milk oats").toList, ("corn peas").toList]

/-- A two-document corpus in which the single vocabulary term occurs in
every document, separating the smoothed idf of the code from the plain
`log(N / df)` idf of the spec. -/
def corpusTwoSame : List (List Char) :=
  [("aa").toList, ("aa").toList]

/-- A concrete DataFrame row for the lookup theorems. -/
def rowPasta : RecipeRow :=
  ⟨("pasta").toList, ("pasta tomato salt").toList, ("boil the pasta").toList,
    ("http example").toList, ("Gathered").toList⟩

theorem rwadLoop_eq_firstSeenDedupFrom (l seen : List (List Char)) :
    rwadLoop l seen = firstSeenDedupFrom (l.map cleanIngredient) seen := by
  induction l generalizing seen with
  | nil => rfl
  | cons a l ih =>
    simp only [rwadLoop, List.map_cons, firstSeenDedupFrom]
    by_cases h : cleanIngredient a ∈ seen
    · simp only [h, if_pos, ih]
    · simp only [h, if_neg, ih, ite_false]

theorem firstSeenDedupFrom_eq_filter (l : List (List Char)) :
    ∀ seen, firstSeenDedupFrom l seen
      = firstSeenDedup (l.filter (fun y => !seen.elem y)) := by
  induction l with
  | nil => intro seen; simp [firstSeenDedupFrom, firstSeenDedup]
  | cons a l ih =>
    intro seen
    by_cases h : a ∈ seen
    · have hb : (List.elem a seen) = true := by
        simpa [List.elem_iff] using h
      simp only [firstSeenDedupFrom, h, if_pos, List.filter_cons, hb,
        Bool.not_true, Bool.false_eq_true, if_neg, ih]
      simp
    · have hb : (List.elem a seen) = false := by
        simp [List.elem_iff, h]
      simp only [firstSeenDedupFrom, h, if_neg, List.filter_cons, hb,
        Bool.not_false, if_pos, ih, ite_false, ite_true]
      rw [firstSeenDedup]
      congr 1
      rw [List.filter_filter]
      have hpred : (fun y => !List.elem y (a :: seen))
          = (fun y => y != a && !List.elem y seen) := by
        funext y
        by_cases hy : y = a <;> simp [List.elem_cons, Bool.not_or, hy]
      rw [hpred]

theorem firstSeenDedupFrom_nil (l : List (List Char)) :
    firstSeenDedupFrom l [] = firstSeenDedup l := by
  rw [firstSeenDedupFrom_eq_filter]
  congr 1
  apply List.filter_eq_self.mpr
  intro a _
  simp [List.elem_iff]

theorem remove_whitespace_and_duplicates_eq (l : List (List Char)) :
    remove_whitespace_and_duplicates l = firstSeenDedup (l.map cleanIngredient) := by
  rw [remove_whitespace_and_duplicates, rwadLoop_eq_firstSeenDedupFrom,
    firstSeenDedupFrom_eq_filter]
  congr 1
  apply List.filter_eq_self.mpr
  intro a _
  simp [List.elem_iff]

theorem mem_firstSeenDedup {a : List Char} :
    ∀ {l : List (List Char)}, a ∈ firstSeenDedup l → a ∈ l := by
  intro l
  induction l using firstSeenDedup.induct with
  | case1 =>
    intro h
    rw [firstSeenDedup] at h
    exact absurd h (List.not_mem_nil a)
  | case2 x xs ih =>
    intro h
    rw [firstSeenDedup] at h
    rcases List.mem_cons.mp h with h | h
    · exact List.mem_cons.mpr (Or.inl h)
    · exact List.mem_cons.mpr (Or.inr (List.mem_of_mem_filter (ih h)))

theorem firstSeenDedup_nodup : ∀ (l : List (List Char)), (firstSeenDedup l).Nodup := by
  intro l
  induction l using firstSeenDedup.induct with
  | case1 =>
    rw [firstSeenDedup]
    exact List.nodup_nil
  | case2 x xs ih =>
    rw [firstSeenDedup]
    refine List.nodup_cons.mpr ⟨?_, ih⟩
    intro hmem
    have := List.of_mem_filter (mem_firstSeenDedup hmem)
    simp at this

theorem firstSeenDedup_eq_self_of_nodup {l : List (List Char)} (h : l.Nodup) :
    firstSeenDedup l = l := by
  induction l using firstSeenDedup.induct with
  | case1 => rw [firstSeenDedup]
  | case2 x xs ih =>
    rw [firstSeenDedup]
    have hx : xs.filter (fun y => y != x) = xs := by
      apply List.filter_eq_self.mpr
      intro a ha
      have : a ≠ x := by
        intro hax; subst hax
        exact (List.nodup_cons.mp h).1 ha
      simpa using this
    rw [hx] at ih ⊢
    rw [ih (List.nodup_cons.mp h).2]

theorem char_toNat_ofNat {n : Nat} (h : n.isValidChar) : (Char.ofNat n).toNat = n := by
  simp only [Char.ofNat, h, dif_pos]
  rfl

theorem toLower_idem (c : Char) : Char.toLower (Char.toLower c) = Char.toLower c := by
  unfold Char.toLower
  by_cases h : c.toNat ≥ 65 ∧ c.toNat ≤ 90
  · have hv : (c.toNat + 32).isValidChar := by
      left; omega
    have ht : (Char.ofNat (c.toNat + 32)).toNat = c.toNat + 32 := char_toNat_ofNat hv
    rw [if_pos h, ht]
    have hno : ¬(c.toNat + 32 ≥ 65 ∧ c.toNat + 32 ≤ 90) := by omega
    rw [if_neg hno]
  · rw [if_neg h, if_neg h]

theorem pyLower_eq_self {s : List Char} (h : ∀ c ∈ s, Char.toLower c = c) :
    pyLower s = s := by
  unfold pyLower
  conv_rhs => rw [← List.map_id s]
  exact List.map_congr_left h

theorem mem_pyStrip {c : Char} {s : List Char} (h : c ∈ pyStrip s) : c ∈ s := by
  unfold pyStrip at h
  rw [List.mem_reverse] at h
  have h1 := (List.dropWhile_sublist isSpaceChar).mem h
  rw [List.mem_reverse] at h1
  exact (List.dropWhile_sublist isSpaceChar).mem h1

theorem mem_cleanIngredient_lower {c : Char} {s : List Char}
    (h : c ∈ cleanIngredient s) : c ∈ pyLower s := by
  unfold cleanIngredient subNonWordSpace at h
  exact mem_pyStrip (List.mem_of_mem_filter h)

theorem cleanIngredient_lower_fixed {c : Char} {s : List Char}
    (h : c ∈ cleanIngredient s) : Char.toLower c = c := by
  have := mem_cleanIngredient_lower h
  unfold pyLower at this
  rcases List.mem_map.mp this with ⟨a, _, ha⟩
  rw [← ha]
  exact toLower_idem a

theorem cleanIngredient_keep {c : Char} {s : List Char}
    (h : c ∈ cleanIngredient s) : (isWordChar c || isSpaceChar c) = true := by
  unfold cleanIngredient subNonWordSpace at h
  exact (List.mem_filter.mp h).2

theorem dropWhile_idem (p : Char → Bool) (l : List Char) :
    (l.dropWhile p).dropWhile p = l.dropWhile p := by
  induction l with
  | nil => rfl
  | cons a l ih =>
    by_cases h : p a
    · simp [List.dropWhile_cons, h, ih]
    · simp [List.dropWhile_cons, h]

theorem dropWhile_eq_self_of_prefix {p : Char → Bool} {t l : List Char}
    (hpre : t <+: l) (hl : l.dropWhile p = l) : t.dropWhile p = t := by
  cases t with
  | nil => rfl
  | cons c t =>
    rcases hpre with ⟨u, hu⟩
    have hc : p c = false := by
      by_contra hc
      rw [← hu] at hl
      simp only [List.cons_append, List.dropWhile_cons] at hl
      rw [if_pos (by simpa using hc)] at hl
      have hlen := congrArg List.length hl
      have h2 : ((t ++ u).dropWhile p).length ≤ (t ++ u).length :=
        (List.dropWhile_sublist p).length_le
      simp only [List.length_cons] at hlen
      omega
    simp [List.dropWhile_cons, hc]

theorem pyStrip_prefix_dropWhile (s : List Char) :
    pyStrip s <+: s.dropWhile isSpaceChar := by
  unfold pyStrip
  conv_rhs => rw [← List.reverse_reverse (s.dropWhile isSpaceChar)]
  exact List.reverse_prefix.mpr (List.dropWhile_suffix isSpaceChar)

theorem pyStrip_drop_fixed (s : List Char) :
    (pyStrip s).dropWhile isSpaceChar = pyStrip s :=
  dropWhile_eq_self_of_prefix (pyStrip_prefix_dropWhile s) (dropWhile_idem _ _)

theorem pyStrip_idem (s : List Char) : pyStrip (pyStrip s) = pyStrip s := by
  have h1 := pyStrip_drop_fixed s
  show (((pyStrip s).dropWhile isSpaceChar).reverse.dropWhile isSpaceChar).reverse = pyStrip s
  rw [h1]
  have h2 : (pyStrip s).reverse = (s.dropWhile isSpaceChar).reverse.dropWhile isSpaceChar := by
    unfold pyStrip
    rw [List.reverse_reverse]
  rw [h2, dropWhile_idem]
  unfold pyStrip
  rfl

theorem cleanIngredient_of_clean {t : List Char}
    (hlow : ∀ c ∈ t, Char.toLower c = c)
    (hkeep : ∀ c ∈ t, (isWordChar c || isSpaceChar c) = true) :
    cleanIngredient t = pyStrip t := by
  unfold cleanIngredient
  rw [pyLower_eq_self hlow]
  unfold subNonWordSpace
  apply List.filter_eq_self.mpr
  intro c hc
  exact hkeep c (mem_pyStrip hc)

theorem cleanIngredient_clean_clean (s : List Char) :
    cleanIngredient (cleanIngredient s) = pyStrip (cleanIngredient s) :=
  cleanIngredient_of_clean (fun _ h => cleanIngredient_lower_fixed h)
    (fun _ h => cleanIngredient_keep h)

theorem cleanIngredient_settled (s : List Char) :
    cleanIngredient (cleanIngredient (cleanIngredient s))
      = cleanIngredient (cleanIngredient s) := by
  rw [cleanIngredient_clean_clean s]
  have hsub : ∀ c ∈ pyStrip (cleanIngredient s), c ∈ cleanIngredient s :=
    fun _ h => mem_pyStrip h
  rw [cleanIngredient_of_clean
    (fun c h => cleanIngredient_lower_fixed (hsub c h))
    (fun c h => cleanIngredient_keep (hsub c h))]
  rw [pyStrip_idem, ← cleanIngredient_clean_clean s]

/-- Claim C7: the ingredient normalizer lowercases every token, strips its
leading and trailing whitespace, removes every character matching `[^\w\s]`,
and removes duplicate tokens keeping only the first occurrence; on empty
input it returns an empty collection. -/
theorem C7_normalizer_contract :
    remove_whitespace_and_duplicates [] = []
    ∧ (∀ l, remove_whitespace_and_duplicates l
        = firstSeenDedup (l.map (fun s => subNonWordSpace (pyStrip (pyLower s)))))
    ∧ (∀ l, (remove_whitespace_and_duplicates l).Nodup) := by
  refine ⟨rfl, ?_, ?_⟩
  · intro l
    exact remove_whitespace_and_duplicates_eq l
  · intro l
    rw [remove_whitespace_and_duplicates_eq]
    exact firstSeenDedup_nodup _

/-- Claim C8 counterexample: the normalizer is not idempotent.  On the
input list whose only token is the text dot-space-a-space-b-space-dot, the
first pass strips nothing (the edge characters are dots, not whitespace)
and then deletes the dots, leaving a token with leading and trailing
spaces; a second pass strips those spaces, changing the result. -/
theorem C8_cex :
    remove_whitespace_and_duplicates
        (remove_whitespace_and_duplicates [(". a b .").toList])
      ≠ remove_whitespace_and_duplicates [(". a b .").toList] := by
  decide

theorem rwad_elem_settled {a : List Char} {x : List (List Char)}
    (h : a ∈ remove_whitespace_and_duplicates (remove_whitespace_and_duplicates x)) :
    cleanIngredient a = a := by
  rw [remove_whitespace_and_duplicates_eq] at h
  rcases List.mem_map.mp (mem_firstSeenDedup h) with ⟨b, hb, hba⟩
  rw [remove_whitespace_and_duplicates_eq] at hb
  rcases List.mem_map.mp (mem_firstSeenDedup hb) with ⟨e, _, heb⟩
  rw [← hba, ← heb]
  exact cleanIngredient_settled e

/-- Claim C8 (amended): the normalizer becomes stable after two passes:
applying it a third time changes nothing, even though (by `C8_cex`) the
second pass can differ from the first. -/
theorem C8_double_application_stable (x : List (List Char)) :
    remove_whitespace_and_duplicates (remove_whitespace_and_duplicates
        (remove_whitespace_and_duplicates x))
      = remove_whitespace_and_duplicates (remove_whitespace_and_duplicates x) := by
  rw [remove_whitespace_and_duplicates_eq
    (remove_whitespace_and_duplicates (remove_whitespace_and_duplicates x))]
  have hmap : (remove_whitespace_and_duplicates
      (remove_whitespace_and_duplicates x)).map cleanIngredient
      = remove_whitespace_and_duplicates (remove_whitespace_and_duplicates x) := by
    conv_rhs => rw [← List.map_id (remove_whitespace_and_duplicates
      (remove_whitespace_and_duplicates x))]
    exact List.map_congr_left (fun a ha => rwad_elem_settled ha)
  rw [hmap]
  apply firstSeenDedup_eq_self_of_nodup
  rw [remove_whitespace_and_duplicates_eq]
  exact firstSeenDedup_nodup _

/-- Claim C10: a non-empty token that consists only of `[^\w\s]` characters
after lowercasing and stripping is cleaned to the empty string, and that
empty string is kept as a token of the output, so the normalized output is
a non-empty list containing the empty string. -/
theorem C10_punctuation_only_token (s : List Char) (_hne : s ≠ [])
    (hall : ∀ c ∈ pyStrip (pyLower s), isWordChar c = false ∧ isSpaceChar c = false) :
    cleanIngredient s = []
    ∧ remove_whitespace_and_duplicates [s] = [[]]
    ∧ remove_whitespace_and_duplicates [s] ≠ [] := by
  have hclean : cleanIngredient s = [] := by
    unfold cleanIngredient subNonWordSpace
    apply List.filter_eq_nil_iff.mpr
    intro c hc
    rcases hall c hc with ⟨h1, h2⟩
    simp [h1, h2]
  refine ⟨hclean, ?_, ?_⟩
  · rw [remove_whitespace_and_duplicates_eq]
    simp only [List.map_cons, List.map_nil, hclean]
    rw [firstSeenDedup]
    simp [firstSeenDedup]
  · rw [remove_whitespace_and_duplicates_eq]
    simp only [List.map_cons, List.map_nil, hclean]
    rw [firstSeenDedup]
    simp

/-- Witness for C10 at the concrete token made of three exclamation marks. -/
theorem C10_witness :
    cleanIngredient (("!!!").toList) = []
    ∧ remove_whitespace_and_duplicates [("!!!").toList] = [[]]
    ∧ remove_whitespace_and_duplicates [("!!!").toList] ≠ [] :=
  C10_punctuation_only_token (("!!!").toList) (by decide) (by decide)

theorem docFreq_le_length (docs : List (List Char)) (t : List Char) :
    docFreq docs t ≤ docs.length :=
  List.countP_le_length _

theorem idf_pos (docs : List (List Char)) (t : List Char) : 0 < idf docs t := by
  unfold idf
  have hd : (0 : ℝ) < 1 + (docFreq docs t : ℝ) := by positivity
  have h1 : (1 : ℝ) ≤ (1 + (docs.length : ℝ)) / (1 + (docFreq docs t : ℝ)) := by
    rw [le_div_iff₀ hd]
    have := docFreq_le_length docs t
    have hc : (docFreq docs t : ℝ) ≤ (docs.length : ℝ) := by exact_mod_cast this
    linarith
  have := Real.log_nonneg h1
  linarith

theorem tfidfWeight_eq_zero {docs : List (List Char)} {text t : List Char}
    (h : termCount text t = 0) : tfidfWeight docs text t = 0 := by
  unfold tfidfWeight tfidfRawWeight
  rw [h]
  simp

theorem cosineSim_zero_of_disjoint {docs : List (List Char)} {a b : List Char}
    (h : ∀ t ∈ vocab docs, termCount a t = 0 ∨ termCount b t = 0) :
    cosineSim docs a b = 0 := by
  unfold cosineSim
  apply List.sum_eq_zero
  intro x hx
  rcases List.mem_map.mp hx with ⟨t, ht, rfl⟩
  rcases h t ht with h0 | h0
  · rw [tfidfWeight_eq_zero h0, zero_mul]
  · rw [tfidfWeight_eq_zero h0, mul_zero]

theorem sum_map_single {l : List (List Char)} {f : List Char → ℝ} {t0 : List Char}
    (hl : l.Nodup) (ht : t0 ∈ l) (hz : ∀ t ∈ l, t ≠ t0 → f t = 0) :
    (l.map f).sum = f t0 := by
  induction l with
  | nil => cases ht
  | cons x xs ih =>
    rcases List.mem_cons.mp ht with h0 | hmem
    · subst h0
      simp only [List.map_cons, List.sum_cons]
      have hrest : ∀ t ∈ xs, f t = 0 := by
        intro t ht2
        refine hz t (List.mem_cons_of_mem _ ht2) ?_
        intro he
        exact (List.nodup_cons.mp hl).1 (he ▸ ht2)
      rw [List.sum_eq_zero, add_zero]
      intro y hy
      rcases List.mem_map.mp hy with ⟨t, ht2, rfl⟩
      exact hrest t ht2
    · have hxne : x ≠ t0 := by
        intro he
        exact (List.nodup_cons.mp hl).1 (he ▸ hmem)
      have hx0 : f x = 0 := hz x (List.mem_cons_self x xs) hxne
      simp only [List.map_cons, List.sum_cons, hx0, zero_add]
      exact ih (List.nodup_cons.mp hl).2 hmem
        (fun t ht2 h2 => hz t (List.mem_cons_of_mem _ ht2) h2)

theorem vocab_nodup (docs : List (List Char)) : (vocab docs).Nodup := by
  unfold vocab
  rw [firstSeenDedupFrom_nil]
  exact firstSeenDedup_nodup _

theorem tfidfWeight_self_one {docs : List (List Char)} {text t0 : List Char}
    (ht0 : t0 ∈ vocab docs)
    (hz : ∀ t ∈ vocab docs, t ≠ t0 → termCount text t = 0)
    (hpos : 0 < termCount text t0) :
    tfidfWeight docs text t0 = 1 := by
  have hI := idf_pos docs t0
  have hc : (0 : ℝ) < (termCount text t0 : ℝ) := by exact_mod_cast hpos
  have hraw : 0 < tfidfRawWeight docs text t0 := by
    unfold tfidfRawWeight
    positivity
  have hnorm : tfidfNormSq docs text = tfidfRawWeight docs text t0 ^ 2 := by
    unfold tfidfNormSq
    apply sum_map_single (vocab_nodup docs) ht0
    intro t ht hne
    unfold tfidfRawWeight
    rw [hz t ht hne]
    simp
  unfold tfidfWeight
  rw [hnorm, Real.sqrt_sq (le_of_lt hraw)]
  exact div_self (ne_of_gt hraw)

theorem cosineSim_onehot_query {docs : List (List Char)} {q d t0 : List Char}
    (ht0 : t0 ∈ vocab docs)
    (hq0 : ∀ t ∈ vocab docs, t ≠ t0 → termCount q t = 0)
    (hq : 0 < termCount q t0) :
    cosineSim docs q d = tfidfWeight docs d t0 := by
  unfold cosineSim
  have := sum_map_single (f := fun t => tfidfWeight docs q t * tfidfWeight docs d t)
    (vocab_nodup docs) ht0
    (by
      intro t ht hne
      show tfidfWeight docs q t * tfidfWeight docs d t = 0
      rw [tfidfWeight_eq_zero (hq0 t ht hne), zero_mul])
  rw [this]
  show tfidfWeight docs q t0 * tfidfWeight docs d t0 = tfidfWeight docs d t0
  rw [tfidfWeight_self_one ht0 hq0 hq, one_mul]

theorem cosineSim_onehot_both {docs : List (List Char)} {a b t0 : List Char}
    (ht0 : t0 ∈ vocab docs)
    (ha0 : ∀ t ∈ vocab docs, t ≠ t0 → termCount a t = 0)
    (hb0 : ∀ t ∈ vocab docs, t ≠ t0 → termCount b t = 0)
    (ha : 0 < termCount a t0) (hb : 0 < termCount b t0) :
    cosineSim docs a b = 1 := by
  rw [cosineSim_onehot_query ht0 ha0 ha]
  exact tfidfWeight_self_one ht0 hb0 hb

theorem neighborRel_total (docs : List (List Char)) (q : List Char) :
    ∀ i j, neighborRel docs q i j ∨ neighborRel docs q j i := by
  intro i j
  rcases lt_trichotomy (cosineDist docs q (docs.getD i []))
    (cosineDist docs q (docs.getD j [])) with h | h | h
  · exact Or.inl (Or.inl h)
  · rcases Nat.le_total i j with hij | hij
    · exact Or.inl (Or.inr ⟨h, hij⟩)
    · exact Or.inr (Or.inr ⟨h.symm, hij⟩)
  · exact Or.inr (Or.inl h)

theorem neighborRel_trans (docs : List (List Char)) (q : List Char) :
    ∀ i j k, neighborRel docs q i j → neighborRel docs q j k →
      neighborRel docs q i k := by
  intro i j k hij hjk
  rcases hij with h1 | ⟨h1, hle1⟩
  · rcases hjk with h2 | ⟨h2, _⟩
    · exact Or.inl (lt_trans h1 h2)
    · exact Or.inl (h2 ▸ h1)
  · rcases hjk with h2 | ⟨h2, hle2⟩
    · exact Or.inl (h1 ▸ h2)
    · exact Or.inr ⟨h1.trans h2, hle1.trans hle2⟩

instance neighborRelIsTotal (docs : List (List Char)) (q : List Char) :
    IsTotal Nat (neighborRel docs q) :=
  ⟨neighborRel_total docs q⟩

instance neighborRelIsTrans (docs : List (List Char)) (q : List Char) :
    IsTrans Nat (neighborRel docs q) :=
  ⟨neighborRel_trans docs q⟩

theorem neighborRel_dist_le {docs : List (List Char)} {q : List Char} {i j : Nat}
    (h : neighborRel docs q i j) :
    cosineDist docs q (docs.getD i []) ≤ cosineDist docs q (docs.getD j []) := by
  rcases h with h | ⟨h, _⟩
  · exact le_of_lt h
  · exact le_of_eq h

theorem kneighborsOrder_length (docs : List (List Char)) (q : List Char) :
    (kneighborsOrder docs q).length = docs.length := by
  unfold kneighborsOrder
  rw [List.length_insertionSort, List.length_range]

/-- Claim C2 counterexample: on a three-document corpus the recommendation
call does not return `min(6, 3) = 3` record ids for the non-empty query;
it returns no result at all, because the fitted model requests
`n_neighbors = 11` neighbours and scikit-learn raises when the corpus
holds fewer than eleven documents. -/
theorem C2_cex :
    (generate_recipe_recommendations [("rice").toList] corpusSmall).isOk = false := by
  rfl

/-- Claim C2 (amended): for a corpus of at least eleven documents the
recommendation operation returns exactly six record ids for every query,
rather than `min(6, n)`; for smaller corpora the neighbour query errors
(see the counterexample). -/
theorem C2_result_bound_amended (input docs : List (List Char))
    (h : 11 ≤ docs.length) :
    ∃ l, generate_recipe_recommendations input docs = Except.ok l
      ∧ l.length = 6 := by
  have hcond : ¬(docs.length < nNeighborsParam) := by
    unfold nNeighborsParam
    omega
  unfold generate_recipe_recommendations kneighbors
  rw [if_neg hcond]
  refine ⟨_, rfl, ?_⟩
  rw [List.length_take, List.length_drop, List.length_take,
    kneighborsOrder_length]
  unfold nNeighborsParam
  omega

/-- Witness for the amended C2 at the eleven-document corpus. -/
theorem C2_result_bound_witness :
    ∃ l, generate_recipe_recommendations [("bread").toList] corpus11 = Except.ok l
      ∧ l.length = 6 :=
  C2_result_bound_amended [("bread").toList] corpus11 (by decide)

/-- Claim C3 counterexample: calling the recommendation operation with an
empty ingredient list raises nothing on an eleven-document corpus — the
call succeeds and returns record ids.  No `InvalidQuery` (or any
empty-input check) exists in the code. -/
theorem C3_cex :
    (generate_recipe_recommendations [] corpus11).isOk = true := by
  rfl

/-- Claim C3 (amended): the code performs no empty-query validation.  The
empty ingredient list is joined to the empty string, whose TF-IDF vector
is zero, so its cosine similarity to every document is zero; the neighbour
query then proceeds normally and (on a corpus of at least eleven
documents) recommendations are returned instead of an error. -/
theorem C3_no_empty_query_rejection (docs : List (List Char)) :
    (∀ d, cosineSim docs (ingredientsText []) d = 0)
    ∧ (11 ≤ docs.length →
        (generate_recipe_recommendations [] docs).isOk = true) := by
  constructor
  · intro d
    apply cosineSim_zero_of_disjoint
    intro t _
    left
    rfl
  · intro h
    have hcond : ¬(docs.length < nNeighborsParam) := by
      unfold nNeighborsParam
      omega
    unfold generate_recipe_recommendations kneighbors
    rw [if_neg hcond]
    rfl

/-- Witness for the amended C3 at the eleven-document corpus. -/
theorem C3_no_empty_query_rejection_witness :
    (∀ d, cosineSim corpus11 (ingredientsText []) d = 0)
    ∧ (generate_recipe_recommendations [] corpus11).isOk = true :=
  ⟨(C3_no_empty_query_rejection corpus11).1,
    (C3_no_empty_query_rejection corpus11).2 (by decide)⟩

/-- Claim C6 counterexample: on the three-record corpus of the scenario
(R1 bread butter, R2 bread cheese, R3 rice egg — indices 0, 1, 2) the
recommendation call does not return `[R1, R2, R3]`; it fails, because the
fitted model requests eleven neighbours from a three-document corpus. -/
theorem C6_cex :
    generate_recipe_recommendations [("bread").toList] corpusScenario
      ≠ Except.ok [0, 1, 2] := by
  intro h
  rw [show generate_recipe_recommendations [("bread").toList] corpusScenario
      = Except.error SklearnError.nNeighborsExceedsFit from rfl] at h
  exact Except.noConfusion h

/-- Claim C6 (amended): on the scenario corpus the tie the claim describes
does exist — R1 and R2 are at exactly equal cosine distance from the query
bread — but the recommendation call returns no ordering at all: it errors
because `n_neighbors = 11` exceeds the three fitted samples.  The code
fixes no tie-break of its own. -/
theorem C6_tie_scenario :
    cosineDist corpusScenario (ingredientsText [("bread").toList])
        (corpusScenario.getD 0 [])
      = cosineDist corpusScenario (ingredientsText [("bread").toList])
        (corpusScenario.getD 1 [])
    ∧ generate_recipe_recommendations [("bread").toList] corpusScenario
      = Except.error SklearnError.nNeighborsExceedsFit := by
  constructor
  · have hb : (("bread").toList) ∈ vocab corpusScenario := by decide
    have hq0 : ∀ t ∈ vocab corpusScenario, t ≠ ("bread").toList →
        termCount (ingredientsText [("bread").toList]) t = 0 := by decide
    have hqpos :
        0 < termCount (ingredientsText [("bread").toList]) (("bread").toList) := by
      decide
    unfold cosineDist
    rw [cosineSim_onehot_query hb hq0 hqpos, cosineSim_onehot_query hb hq0 hqpos]
    have hvoc : vocab corpusScenario = [("bread").toList, ("butter").toList,
        ("cheese").toList, ("rice").toList, ("egg").toList] := by decide
    have h00 : termCount (corpusScenario.getD 0 []) (("bread").toList) = 1 := by decide
    have h01 : termCount (corpusScenario.getD 0 []) (("butter").toList) = 1 := by decide
    have h02 : termCount (corpusScenario.getD 0 []) (("cheese").toList) = 0 := by decide
    have h03 : termCount (corpusScenario.getD 0 []) (("rice").toList) = 0 := by decide
    have h04 : termCount (corpusScenario.getD 0 []) (("egg").toList) = 0 := by decide
    have h10 : termCount (corpusScenario.getD 1 []) (("bread").toList) = 1 := by decide
    have h11 : termCount (corpusScenario.getD 1 []) (("butter").toList) = 0 := by decide
    have h12 : termCount (corpusScenario.getD 1 []) (("cheese").toList) = 1 := by decide
    have h13 : termCount (corpusScenario.getD 1 []) (("rice").toList) = 0 := by decide
    have h14 : termCount (corpusScenario.getD 1 []) (("egg").toList) = 0 := by decide
    have hidf : idf corpusScenario (("butter").toList)
        = idf corpusScenario (("cheese").toList) := by
      unfold idf
      rw [show docFreq corpusScenario (("butter").toList) = 1 from by decide,
        show docFreq corpusScenario (("cheese").toList) = 1 from by decide]
    unfold tfidfWeight tfidfNormSq tfidfRawWeight
    rw [hvoc]
    simp only [List.map_cons, List.map_nil, List.sum_cons, List.sum_nil,
      h00, h01, h02, h03, h04, h10, h11, h12, h13, h14]
    rw [hidf]
    push_cast
    ring_nf
  · rfl

/-- Claim C1 (amended): for every query — genuine or not — on a corpus of
at least eleven documents, the operation drops the first returned
neighbour: there is an index `i` at minimal cosine distance from the query
that is missing from the six returned record ids. -/
theorem C1_always_drops_nearest (input docs : List (List Char))
    (h : 11 ≤ docs.length) :
    ∃ i l, generate_recipe_recommendations input docs = Except.ok l
      ∧ l.length = 6 ∧ i ∉ l ∧ i < docs.length
      ∧ ∀ j, j < docs.length →
          cosineDist docs (ingredientsText input) (docs.getD i [])
            ≤ cosineDist docs (ingredientsText input) (docs.getD j []) := by
  have hlen := kneighborsOrder_length docs (ingredientsText input)
  have hperm : List.Perm (kneighborsOrder docs (ingredientsText input))
      (List.range docs.length) :=
    List.perm_insertionSort _ _
  have hnodup : (kneighborsOrder docs (ingredientsText input)).Nodup :=
    hperm.nodup_iff.mpr (List.nodup_range _)
  have hsorted : List.Sorted (neighborRel docs (ingredientsText input))
      (kneighborsOrder docs (ingredientsText input)) :=
    List.sorted_insertionSort _ _
  have hcond : ¬(docs.length < nNeighborsParam) := by
    unfold nNeighborsParam
    omega
  cases horder : kneighborsOrder docs (ingredientsText input) with
  | nil =>
    rw [horder] at hlen
    simp at hlen
    omega
  | cons i rest =>
    rw [horder] at hlen hnodup hsorted hperm
    have hrest : rest.length = docs.length - 1 := by
      simp only [List.length_cons] at hlen
      omega
    refine ⟨i, (rest.take 10).take 6, ?_, ?_, ?_, ?_, ?_⟩
    · unfold generate_recipe_recommendations kneighbors
      rw [if_neg hcond, horder]
      show Except.ok ((((i :: rest).take nNeighborsParam).drop 1).take 6) = _
      unfold nNeighborsParam
      rw [List.take_succ_cons, List.drop_succ_cons, List.drop_zero]
    · rw [List.take_take, List.length_take]
      omega
    · intro hmem
      have h1 : i ∈ rest :=
        List.take_subset _ _ (List.take_subset _ _ hmem)
      exact (List.nodup_cons.mp hnodup).1 h1
    · have : i ∈ List.range docs.length :=
        hperm.mem_iff.mp (List.mem_cons_self i rest)
      exact List.mem_range.mp this
    · intro j hj
      have hjmem : j ∈ i :: rest := hperm.mem_iff.mpr (List.mem_range.mpr hj)
      rcases List.mem_cons.mp hjmem with h0 | h0
      · rw [h0]
      · exact neighborRel_dist_le ((List.sorted_cons.mp hsorted).1 j h0)

/-- Witness for the amended C1 at the eleven-document corpus with the
genuine query bread. -/
theorem C1_always_drops_nearest_witness :
    ∃ i l, generate_recipe_recommendations [("bread").toList] corpus11 = Except.ok l
      ∧ l.length = 6 ∧ i ∉ l ∧ i < corpus11.length
      ∧ ∀ j, j < corpus11.length →
          cosineDist corpus11 (ingredientsText [("bread").toList]) (corpus11.getD i [])
            ≤ cosineDist corpus11 (ingredientsText [("bread").toList])
                (corpus11.getD j []) :=
  C1_always_drops_nearest [("bread").toList] corpus11 (by decide)

/-- Claim C1 counterexample: the query bread is genuine (its query text is
not a corpus document of `corpus11`), document 0 is its strictly nearest
neighbour (distance 0 versus 1 for every other document), yet the
operation returns `[1, 2, 3, 4, 5, 6]` — the nearest document is dropped —
instead of the first six of the distance ordering, `[0, 1, 2, 3, 4, 5]`. -/
theorem C1_cex :
    ingredientsText [("bread").toList] ∉ corpus11
    ∧ generate_recipe_recommendations [("bread").toList] corpus11
      = Except.ok [1, 2, 3, 4, 5, 6]
    ∧ ((kneighborsOrder corpus11
        (ingredientsText [("bread").toList])).take nNeighborsParam).take 6
      = [0, 1, 2, 3, 4, 5] := by
  have hb : (("bread").toList) ∈ vocab corpus11 := by decide
  have hq0 : ∀ t ∈ vocab corpus11, t ≠ ("bread").toList →
      termCount (ingredientsText [("bread").toList]) t = 0 := by decide
  have hd00 : ∀ t ∈ vocab corpus11, t ≠ ("bread").toList →
      termCount (corpus11.getD 0 []) t = 0 := by decide
  have hd0 : cosineDist corpus11 (ingredientsText [("bread").toList])
      (corpus11.getD 0 []) = 0 := by
    unfold cosineDist
    rw [cosineSim_onehot_both hb hq0 hd00 (by decide) (by decide)]
    ring
  have hdis : ∀ i < 11, 1 ≤ i → ∀ t ∈ vocab corpus11,
      termCount (ingredientsText [("bread").toList]) t = 0
      ∨ termCount (corpus11.getD i []) t = 0 := by decide
  have hdi : ∀ i < 11, 1 ≤ i → cosineDist corpus11
      (ingredientsText [("bread").toList]) (corpus11.getD i []) = 1 := by
    intro i hilt hile
    unfold cosineDist
    rw [cosineSim_zero_of_disjoint (hdis i hilt hile)]
    ring
  have hsorted : List.Sorted (neighborRel corpus11
      (ingredientsText [("bread").toList])) [0, 1, 2, 3, 4, 5, 6, 7, 8, 9, 10] := by
    have hp : List.Pairwise (fun i j => i < j ∧ j ≤ 10)
        [0, 1, 2, 3, 4, 5, 6, 7, 8, 9, 10] := by decide
    refine hp.imp ?_
    intro i j hij
    by_cases hi0 : i = 0
    · subst hi0
      exact Or.inl (by rw [hd0, hdi j (by omega) (by omega)]; norm_num)
    · exact Or.inr ⟨by rw [hdi i (by omega) (by omega), hdi j (by omega) (by omega)],
        le_of_lt hij.1⟩
  have horder : kneighborsOrder corpus11 (ingredientsText [("bread").toList])
      = [0, 1, 2, 3, 4, 5, 6, 7, 8, 9, 10] := by
    unfold kneighborsOrder
    rw [show corpus11.length = 11 from rfl,
      show List.range 11 = [0, 1, 2, 3, 4, 5, 6, 7, 8, 9, 10] from by decide]
    exact List.Sorted.insertionSort_eq hsorted
  refine ⟨by decide, ?_, ?_⟩
  · unfold generate_recipe_recommendations kneighbors
    rw [if_neg (by decide), horder]
    rfl
  · rw [horder]
    rfl

theorem mem_joinSpace {c : Char} :
    ∀ {l : List (List Char)}, c ∈ joinSpace l → c = ' ' ∨ ∃ s ∈ l, c ∈ s := by
  intro l
  induction l with
  | nil =>
    intro h
    exact absurd h (List.not_mem_nil c)
  | cons s rest ih =>
    cases rest with
    | nil =>
      intro h
      exact Or.inr ⟨s, List.mem_cons_self s [], h⟩
    | cons t ts =>
      intro h
      rw [show joinSpace (s :: t :: ts) = s ++ (' ' :: joinSpace (t :: ts))
        from rfl] at h
      rcases List.mem_append.mp h with h | h
      · exact Or.inr ⟨s, List.mem_cons_self s (t :: ts), h⟩
      · rcases List.mem_cons.mp h with h | h
        · exact Or.inl h
        · rcases ih h with h | ⟨u, hu, hcu⟩
          · exact Or.inl h
          · exact Or.inr ⟨u, List.mem_cons_of_mem _ hu, hcu⟩

/-- Claim C4 counterexample: the query text built by the pipeline for the
single raw ingredient a-comma-b keeps the comma, while the Text
Normalizer followed by joining would remove it — the query does not
undergo the normalization the claim states. -/
theorem C4_cex :
    ingredientsText [("a,b").toList] ≠ normalizedQueryText [("a,b").toList] := by
  decide

/-- Claim C4 (amended): at query time the pipeline only joins the raw
ingredients with spaces and lowercases the result; no stripping,
punctuation removal or deduplication is applied.  In particular, whenever
the input is already normalized — every token fixed by the cleaning step
and no duplicate tokens — the normalizer-then-join text coincides with the
query text of the pipeline (this condition is sufficient, not necessary:
lowercasing alone can also make the two texts agree). -/
theorem C4_query_only_lowercased (input : List (List Char)) :
    ingredientsText input = pyLower (joinSpace input)
    ∧ ((∀ s ∈ input, cleanIngredient s = s) → input.Nodup →
        ingredientsText input = normalizedQueryText input) := by
  constructor
  · rfl
  · intro hset hnodup
    have hr : remove_whitespace_and_duplicates input = input := by
      rw [remove_whitespace_and_duplicates_eq]
      have hmap : input.map cleanIngredient = input := by
        conv_rhs => rw [← List.map_id input]
        exact List.map_congr_left hset
      rw [hmap, firstSeenDedup_eq_self_of_nodup hnodup]
    unfold normalizedQueryText
    rw [hr]
    unfold ingredientsText
    apply pyLower_eq_self
    intro c hc
    rcases mem_joinSpace hc with h | ⟨s, hs, hcs⟩
    · rw [h]
      rfl
    · have : c ∈ cleanIngredient s := by
        rw [hset s hs]
        exact hcs
      exact cleanIngredient_lower_fixed this

/-- Witness for the amended C4 at an already-normalized duplicate-free
input. -/
theorem C4_query_only_lowercased_witness :
    ingredientsText [("bread").toList, ("milk").toList]
      = pyLower (joinSpace [("bread").toList, ("milk").toList])
    ∧ ingredientsText [("bread").toList, ("milk").toList]
      = normalizedQueryText [("bread").toList, ("milk").toList] :=
  ⟨(C4_query_only_lowercased [("bread").toList, ("milk").toList]).1,
    (C4_query_only_lowercased [("bread").toList, ("milk").toList]).2
      (by decide) (by decide)⟩

theorem vocab_not_stopword {docs : List (List Char)} {t : List Char}
    (h : t ∈ vocab docs) : t ∉ englishStopWords := by
  unfold vocab at h
  rw [firstSeenDedupFrom_nil] at h
  rcases List.mem_flatten.mp (mem_firstSeenDedup h) with ⟨tl, htl, hmem⟩
  rcases List.mem_map.mp htl with ⟨d, _, hd⟩
  rw [← hd] at hmem
  unfold sklearnTokens at hmem
  have hf := (List.mem_filter.mp hmem).2
  rw [Bool.not_eq_eq_eq_not, Bool.not_true] at hf
  intro hcon
  have h2 : List.elem t englishStopWords = true := List.elem_iff.mpr hcon
  rw [hf] at h2
  exact Bool.false_ne_true h2

/-- Claim C5 counterexample: on the two-document corpus whose single
vocabulary term occurs in both documents, the weight formula of the claim,
tf times log(N / df), gives weight 0 (log of 2/2), while the vectorizer of
the code — smoothed idf, log((1+N)/(1+df)) + 1, as used by
`TfidfVectorizer` — gives normalized weight 1. -/
theorem C5_cex :
    tfidfWeightSpec corpusTwoSame (("aa").toList) (("aa").toList) = 0
    ∧ tfidfWeight corpusTwoSame (("aa").toList) (("aa").toList) = 1
    ∧ tfidfWeightSpec corpusTwoSame (("aa").toList) (("aa").toList)
      ≠ tfidfWeight corpusTwoSame (("aa").toList) (("aa").toList) := by
  have hspec : tfidfWeightSpec corpusTwoSame (("aa").toList) (("aa").toList) = 0 := by
    unfold tfidfWeightSpec tfidfRawWeightSpec
    rw [show docFreq corpusTwoSame (("aa").toList) = 2 from by decide,
      show corpusTwoSame.length = 2 from rfl]
    norm_num
  have hcode : tfidfWeight corpusTwoSame (("aa").toList) (("aa").toList) = 1 :=
    tfidfWeight_self_one (by decide) (by decide) (by decide)
  refine ⟨hspec, hcode, ?_⟩
  rw [hspec, hcode]
  norm_num

/-- Claim C5 (amended): the vectorizer of the code assigns each term the
weight tf times the smoothed idf log((1+N)/(1+df)) + 1 divided by the
euclidean norm of the document vector; every document vector with a
nonzero coordinate is L2-normalized to unit squared norm, and no English
stop word ever enters the vocabulary. -/
theorem C5_tfidf_smoothed (docs : List (List Char)) (d t : List Char) :
    tfidfWeight docs d t
      = ((termCount d t : ℝ)
          * (Real.log ((1 + (docs.length : ℝ)) / (1 + (docFreq docs t : ℝ))) + 1))
        / Real.sqrt (tfidfNormSq docs d)
    ∧ (∀ sw ∈ englishStopWords, sw ∉ vocab docs)
    ∧ ((∃ u ∈ vocab docs, tfidfRawWeight docs d u ≠ 0) →
        ((vocab docs).map (fun u => tfidfWeight docs d u ^ 2)).sum = 1) := by
  refine ⟨rfl, ?_, ?_⟩
  · intro sw hsw hv
    exact vocab_not_stopword hv hsw
  · intro hex
    rcases hex with ⟨u, hu, hraw⟩
    have hS : 0 < tfidfNormSq docs d := by
      have hmem : tfidfRawWeight docs d u ^ 2
          ∈ (vocab docs).map (fun x => tfidfRawWeight docs d x ^ 2) :=
        List.mem_map_of_mem _ hu
      have hnn : ∀ x ∈ (vocab docs).map (fun x => tfidfRawWeight docs d x ^ 2),
          0 ≤ x := by
        intro x hx
        rcases List.mem_map.mp hx with ⟨v, _, hv⟩
        rw [← hv]
        positivity
      have hle := List.single_le_sum hnn _ hmem
      have hpos : 0 < tfidfRawWeight docs d u ^ 2 := pow_two_pos_of_ne_zero hraw
      unfold tfidfNormSq
      linarith
    have hsq : ∀ v ∈ vocab docs, tfidfWeight docs d v ^ 2
        = tfidfRawWeight docs d v ^ 2 * (tfidfNormSq docs d)⁻¹ := by
      intro v _
      unfold tfidfWeight
      rw [div_pow, Real.sq_sqrt (le_of_lt hS), div_eq_mul_inv]
    calc ((vocab docs).map (fun v => tfidfWeight docs d v ^ 2)).sum
        = ((vocab docs).map
            (fun v => tfidfRawWeight docs d v ^ 2 * (tfidfNormSq docs d)⁻¹)).sum := by
          exact congrArg List.sum (List.map_congr_left hsq)
      _ = ((vocab docs).map (fun v => tfidfRawWeight docs d v ^ 2)).sum
            * (tfidfNormSq docs d)⁻¹ := by
          rw [List.sum_map_mul_right]
      _ = 1 := by
          rw [show ((vocab docs).map (fun v => tfidfRawWeight docs d v ^ 2)).sum
            = tfidfNormSq docs d from rfl]
          exact mul_inv_cancel₀ (ne_of_gt hS)

/-- Witness for the amended C5 at the two-document corpus and its single
vocabulary term. -/
theorem C5_tfidf_smoothed_witness :
    tfidfWeight corpusTwoSame (("aa").toList) (("aa").toList)
      = ((termCount (("aa").toList) (("aa").toList) : ℝ)
          * (Real.log ((1 + (corpusTwoSame.length : ℝ))
              / (1 + (docFreq corpusTwoSame (("aa").toList) : ℝ))) + 1))
        / Real.sqrt (tfidfNormSq corpusTwoSame (("aa").toList))
    ∧ ((vocab corpusTwoSame).map
        (fun u => tfidfWeight corpusTwoSame (("aa").toList) u ^ 2)).sum = 1 :=
  ⟨(C5_tfidf_smoothed corpusTwoSame (("aa").toList) (("aa").toList)).1,
    (C5_tfidf_smoothed corpusTwoSame (("aa").toList) (("aa").toList)).2.2
      ⟨("aa").toList, by decide, by
        unfold tfidfRawWeight
        rw [show termCount (("aa").toList) (("aa").toList) = 1 from by decide]
        have := idf_pos corpusTwoSame (("aa").toList)
        push_cast
        intro hcon
        rw [one_mul] at hcon
        exact absurd hcon (ne_of_gt this)⟩⟩

/-- Claim C9 counterexample: when the external generative call fails, the
lookup silently substitutes placeholder values inside the core — the
`Source` column as recipe type and the drawn `random.randint(15, 90)`
value as preparation time — instead of surfacing an error. -/
theorem C9_cex :
    lookup_recipe_details_by_index [rowPasta] 0 none 42
      = Except.ok (rowPasta.recipe, rowPasta.source, rowPasta.rawIngredients,
          rowPasta.instructions, RecipePrepTime.randomFallback 42, rowPasta.url) := by
  rfl

/-- Claim C9 (amended): an out-of-range index makes the lookup fail with
the positional index error of pandas (no `RecordNotFound` type exists in
the code); and on generative-API failure the code does substitute
placeholders (see the counterexample). -/
theorem C9_lookup_out_of_range (rows : List RecipeRow) (index : Nat)
    (palmResult : Option (Int × Int × List Char)) (randDraw : Nat)
    (h : rows.length ≤ index) :
    lookup_recipe_details_by_index rows index palmResult randDraw
      = Except.error LookupError.indexOutOfRange := by
  unfold lookup_recipe_details_by_index
  rw [List.get?_eq_none.mpr h]

/-- Witness for the amended C9 at a one-row frame and index five. -/
theorem C9_lookup_out_of_range_witness :
    lookup_recipe_details_by_index [rowPasta] 5 none 0
      = Except.error LookupError.indexOutOfRange :=
  C9_lookup_out_of_range [rowPasta] 5 none 0 (by decide)
